import Mathlib

/-!
Verification of the redirect-following core of the fp-ts-fetch library.

The definitions below are shallow embeddings of the TypeScript sources:
`src/Headers.ts`, `src/Url.ts`, `src/request.ts` and `src/index.ts`.
Platform primitives (the WHATWG `Headers` and `URL` classes, and `fetch`)
are external collaborators of the library; they are modelled from the
spec's description of their use (spec sections 4.1, 4.2, 6) and from the
repository's own tests.
-/

namespace FpFetch

/-! ## String helpers

Models of the platform string operations the library leans on, written
over the character list so that they compute by structural recursion. -/

/-- ASCII lower-casing, as applied by the platform `Headers` class to
header names. -/
def lowerStr (s : String) : String := ⟨s.data.map Char.toLower⟩

/-- Platform `String.prototype.endsWith`. -/
def endsWithS (s : String) (post : String) : Bool := post.data.isSuffixOf s.data

/-- Platform `String.prototype.startsWith`. -/
def startsWithS (s : String) (pre : String) : Bool := pre.data.isPrefixOf s.data

/-- Split a character list at the first occurrence of `pat`, returning
the parts before and after it. -/
def breakOnAux (pat : List Char) : List Char → Option (List Char × List Char)
  | [] => none
  | c :: cs =>
    if pat.isPrefixOf (c :: cs) then some ([], (c :: cs).drop pat.length)
    else
      match breakOnAux pat cs with
      | some (pre, post) => some (c :: pre, post)
      | none => none

/-- Split a string at the first occurrence of `pat`. -/
def splitFirst (pat : String) (s : String) : Option (String × String) :=
  (breakOnAux pat.data s.data).map (fun p => (⟨p.1⟩, ⟨p.2⟩))

/-- The longest slash-free initial segment (the host part after the
scheme separator). -/
def takeUntilSlash (s : String) : String := ⟨s.data.takeWhile (fun c => c ≠ '/')⟩

/-- Everything from the first slash on. -/
def dropUntilSlash (s : String) : String := ⟨s.data.dropWhile (fun c => c ≠ '/')⟩

/-- The directory part of a path: everything up to and including the last
slash. -/
def dirOf (path : String) : String :=
  ⟨(path.data.reverse.dropWhile (fun c => c ≠ '/')).reverse⟩

/-! ## Headers model

The library stores headers in a platform `Headers` object.  We model a
`Headers` value as an association list with lower-cased, duplicate-free
keys, where multi-valued headers are kept in their combined form (values
joined by a comma and a space), which is the observable form through
`Headers.prototype.get`. -/

abbrev HeadersM := List (String × String)

/-- Modelled from the spec: platform `Headers.prototype.get` combined with
`O.fromNullable`, i.e. the `lookup` helper of `src/Headers.ts` (lines 36-39):
case-insensitive name match returning the combined value. -/
def hGet (name : String) (h : HeadersM) : Option String :=
  (h.find? (fun kv => kv.1 == lowerStr name)).map (fun kv => kv.2)

/-- Embeds `set` of `src/Headers.ts` (lines 16-20): replace any prior value
for `name`, preserving other entries (platform `Headers.prototype.set`). -/
def hSet (name value : String) (h : HeadersM) : HeadersM :=
  if h.any (fun kv => kv.1 == lowerStr name)
    then h.map (fun kv =>
      if kv.1 == lowerStr name then (lowerStr name, value) else kv)
    else h ++ [(lowerStr name, value)]

/-- Embeds `unset` of `src/Headers.ts` (lines 28-32): remove all entries
for `name` (platform `Headers.prototype.delete`). -/
def hDelete (name : String) (h : HeadersM) : HeadersM :=
  h.filter (fun kv => kv.1 != lowerStr name)

/-- Embeds `append` of `src/Headers.ts` (lines 22-26), which delegates to
platform `Headers.prototype.append`.  Modelled from the spec: the platform
combines an existing value with the new one joined by a comma and a space
(confirmed by the repository test `Headers.test.ts`, expecting
`baz, bar`). -/
def hAppend (name value : String) (h : HeadersM) : HeadersM :=
  match hGet name h with
  | some old => hSet name (old ++ ", " ++ value) h
  | none => hSet name value h

/-- Embeds `from` of `src/Headers.ts` (line 34): build a header set from a
record of entries. -/
def hFrom (xs : List (String × String)) : HeadersM :=
  xs.foldl (fun h kv => hAppend kv.1 kv.2 h) []

/-- Embeds `Eq.equals` of `src/Headers.ts` (lines 5-14): every entry of
`as` maps to an identical value in `bs`, and both have the same number of
entries. -/
def headersEq (as bs : HeadersM) : Bool :=
  as.all (fun kv => hGet kv.1 bs == some kv.2) && as.length == bs.length

/-- Embeds `omitConfidential` of `src/Headers.ts` (lines 42-45):
`unset('authorization')` then `unset('cookie')`. -/
def omitConfidential (h : HeadersM) : HeadersM :=
  hDelete "cookie" (hDelete "authorization" h)

/-- Embeds `omitConditional` of `src/Headers.ts` (lines 48-53). -/
def omitConditional (h : HeadersM) : HeadersM :=
  hDelete "if-unmodified-since"
    (hDelete "if-none-match" (hDelete "if-modified-since" (hDelete "if-match" h)))

/-! ## URL model (src/Url.ts) -/

/-- A parsed URL.  `protocol` carries the trailing colon (as in the
platform `URL.prototype.protocol`, e.g. `http:`), `host` the authority and
`path` the remainder beginning with a slash. -/
structure Url where
  protocol : String
  host : String
  path : String
deriving Repr, DecidableEq

def urlToString (u : Url) : String :=
  u.protocol ++ "//" ++ u.host ++ u.path

/-- Modelled from the spec: the platform URL parser used by `parse` of
`src/Url.ts` (lines 70-72), restricted to absolute `scheme://host/path`
URLs (spec section 4.2: returns nothing on malformed input). -/
def urlParse (s : String) : Option Url :=
  match splitFirst "://" s with
  | some (scheme, rest) =>
    if scheme == "" then none
    else
      let host := takeUntilSlash rest
      let path := dropUntilSlash rest
      if host == "" then none
      else some ⟨scheme ++ ":", host, if path == "" then "/" else path⟩
  | none => none

/-- Modelled from the spec: `navigate` of `src/Url.ts` (lines 74-76)
resolves `location` against `base` per standard URL resolution (spec
section 4.2), returning nothing when resolution is impossible. -/
def navigate (location : String) (base : Url) : Option Url :=
  match urlParse location with
  | some u => some u
  | none =>
    if startsWithS location "//" then
      let rest : String := ⟨location.data.drop 2⟩
      let host := takeUntilSlash rest
      let path := dropUntilSlash rest
      if host == "" then none
      else some ⟨base.protocol, host, if path == "" then "/" else path⟩
    else if startsWithS location "/" then
      some ⟨base.protocol, base.host, location⟩
    else if location == "" then
      some base
    else
      let dir := dirOf base.path
      some ⟨base.protocol, base.host, (if dir == "" then "/" else dir) ++ location⟩

/-- Embeds `sameOrigin` of `src/Url.ts` (lines 78-81). -/
def sameOrigin (origin : Url) (dest : Url) : Bool :=
  (origin.protocol == dest.protocol || dest.protocol == "https:") &&
  (origin.host == dest.host || endsWithS dest.host ("." ++ origin.host))

/-! ## Requests, Responses, Results (src/request.ts, src/index.ts) -/

/-- A platform `Request` descriptor, with the fields that the library
reads or writes.  `signal` stands for the cancellation signal, abstracted
to an identifier. -/
structure Request where
  method : String
  url : String
  referrer : String
  referrerPolicy : String
  cache : String
  credentials : String
  destination : String
  integrity : String
  mode : String
  keepalive : Bool
  headers : HeadersM
  body : Option String
  redirect : String
  signal : Nat
deriving Repr, DecidableEq

/-- A platform `Response`, with the fields the redirect core reads. -/
structure Response where
  status : Nat
  headers : HeadersM
deriving Repr, DecidableEq

/-- Embeds `Result` of `src/index.ts` (line 13): a response paired with
the request that produced it. -/
abbrev Result := Response × Request

/-- Embeds `equivalent` of `src/request.ts` (lines 43-55): structural
comparison of all descriptor fields except body, redirect mode and the
cancellation signal. -/
def equivalent (left : Request) (right : Request) : Bool :=
  left.cache == right.cache &&
  left.credentials == right.credentials &&
  left.destination == right.destination &&
  headersEq left.headers right.headers &&
  left.integrity == right.integrity &&
  left.keepalive == right.keepalive &&
  left.method == right.method &&
  left.mode == right.mode &&
  left.referrer == right.referrer &&
  left.referrerPolicy == right.referrerPolicy &&
  left.url == right.url

/-- Embeds `method` of `src/request.ts` (lines 5-7):
`new Request(request, {method})`. -/
def Request.withMethod (m : String) (r : Request) : Request :=
  { r with method := m }

/-- Embeds `headers` of `src/request.ts` (lines 9-11):
`new Request(request, {headers})`. -/
def Request.withHeaders (h : HeadersM) (r : Request) : Request :=
  { r with headers := h }

/-- Modelled from the spec: `Req.url`, imported by `src/index.ts` from
`./Request.js` but not present under `src/`; per spec section 4.5 it
produces a new Request pointed at the given URL, preserving method, body
and headers. -/
def Request.withUrl (u : Url) (r : Request) : Request :=
  { r with url := urlToString u }

/-! ## Status dispatch and redirection strategies (src/index.ts) -/

/-- Embeds `matchStatus` of `src/index.ts` (lines 24-34): look the
response status up in the pattern, falling back to `onMismatch`. -/
def matchStatus {A : Type} (onMismatch : Result → A)
    (pattern : List (Nat × (Result → A))) (result : Result) : A :=
  match pattern.lookup result.1.status with
  | some transform => transform result
  | none => onMismatch result

/-- The redirect target of a Result: the `location` response header
resolved against the request's URL, when all of lookup, parse and
resolution succeed.  Helper mirroring the Option pipeline of
`redirectAnyRequest` (src/index.ts lines 43-56). -/
def resolveTarget (result : Result) : Option Url :=
  match hGet "location" result.1.headers, urlParse result.2.url with
  | some location, some origin => navigate location origin
  | _, _ => none

/-- Embeds `redirectAnyRequest` of `src/index.ts` (lines 43-56). -/
def redirectAnyRequest (result : Result) : Request :=
  match hGet "location" result.1.headers, urlParse result.2.url with
  | some location, some origin =>
    match navigate location origin with
    | some dest =>
      if sameOrigin origin dest
        then Request.withUrl dest result.2
        else Request.withHeaders (omitConfidential result.2.headers)
               (Request.withUrl dest result.2)
    | none => result.2
  | _, _ => result.2

/-- Embeds `redirectIfGetMethod` of `src/index.ts` (lines 58-60). -/
def redirectIfGetMethod (result : Result) : Request :=
  if result.2.method == "GET" then redirectAnyRequest result else result.2

/-- Embeds `redirectUsingGetMethod` of `src/index.ts` (lines 62-64). -/
def redirectUsingGetMethod (result : Result) : Request :=
  redirectAnyRequest (result.1, Request.withMethod "GET" result.2)

/-- Embeds `retryWithoutCondition` of `src/index.ts` (lines 66-70). -/
def retryWithoutCondition (result : Result) : Request :=
  if result.2.method != "GET"
    then result.2
    else Request.withHeaders (omitConditional result.2.headers) result.2

/-- Embeds `defaultRedirectionStrategy` of `src/index.ts` (lines 72-78). -/
def defaultRedirectionStrategy : Result → Request :=
  matchStatus Prod.snd
    [(301, redirectIfGetMethod), (302, redirectIfGetMethod),
     (303, redirectUsingGetMethod), (305, redirectAnyRequest),
     (307, redirectIfGetMethod)]

/-- Embeds `aggressiveRedirectionStrategy` of `src/index.ts`
(lines 80-87). -/
def aggressiveRedirectionStrategy : Result → Request :=
  matchStatus Prod.snd
    [(301, redirectAnyRequest), (302, redirectAnyRequest),
     (303, redirectUsingGetMethod), (304, retryWithoutCondition),
     (305, redirectAnyRequest), (307, redirectAnyRequest)]

/-! ## The redirect-following engine (src/index.ts lines 89-111)

The transport primitive `fetch` wrapped by `transfer` (lines 15-19) is an
external collaborator; the engine is embedded over an oracle
`Transfer` that either yields the Result of one exchange or a
network-layer error message. -/

abbrev Transfer := Request → Except String Result

/-- A transport oracle that always succeeds, returning the Result paired
by `transfer` (the response obtained for the request, alongside that very
request, src/index.ts lines 15-19). -/
def okT (t : Request → Result) : Transfer := fun q => Except.ok (t q)

/-- Embeds the inner `followUp` of `followRedirectsWith`
(src/index.ts lines 92-108), with the mutable `seen` accumulator threaded
explicitly: if the budget is spent, succeed with the current Result; push
the current request; if the strategy's proposal is equivalent to any seen
request, succeed with the current Result; otherwise transfer the proposal
(prefixing transport errors with `After redirect: `) and recurse. -/
def followUp (t : Transfer) (strategy : Result → Request) :
    Nat → List Request → Result → Except String Result
  | 0, _, result => Except.ok result
  | max + 1, seen, result =>
    let seen' := seen ++ [result.2]
    let next := strategy result
    if seen'.any (fun s => equivalent s next) then Except.ok result
    else
      match t next with
      | Except.error e => Except.error ("After redirect: " ++ e)
      | Except.ok result' => followUp t strategy max seen' result'

/-- Embeds `followRedirectsWith` of `src/index.ts` (lines 89-111): run
`followUp` with a fresh, empty `seen` list. -/
def followRedirectsWith (t : Transfer) (strategy : Result → Request)
    (max : Nat) (result : Result) : Except String Result :=
  followUp t strategy max [] result

/-- The number of transfers performed by `followUp`: mirrors its
recursion, counting one per taken `transfer` branch. -/
def followUpCount (t : Transfer) (strategy : Result → Request) :
    Nat → List Request → Result → Nat
  | 0, _, _ => 0
  | max + 1, seen, result =>
    let seen' := seen ++ [result.2]
    let next := strategy result
    if seen'.any (fun s => equivalent s next) then 0
    else
      match t next with
      | Except.error _ => 1
      | Except.ok result' => 1 + followUpCount t strategy max seen' result'

/-- The trace of the engine under a total transport oracle, looking for
the first step at which the strategy proposes a request equivalent to one
already in the history: returns the Result current at that step together
with the length of the history at that step. -/
def traceHalt (t : Request → Result) (strategy : Result → Request) :
    Nat → List Request → Result → Option (Result × Nat)
  | 0, _, _ => none
  | fuel + 1, seen, result =>
    let seen' := seen ++ [result.2]
    let next := strategy result
    if seen'.any (fun s => equivalent s next) then some (result, seen'.length)
    else traceHalt t strategy fuel seen' (t next)

/-- Within the given number of steps, the strategy never proposes a
request equivalent to one already in the history. -/
def noHit (t : Request → Result) (strategy : Result → Request) :
    Nat → List Request → Result → Bool
  | 0, _, _ => true
  | fuel + 1, seen, result =>
    let seen' := seen ++ [result.2]
    let next := strategy result
    if seen'.any (fun s => equivalent s next) then false
    else noHit t strategy fuel seen' (t next)

/-- Pure iteration of strategy-then-transfer under a total oracle: the
Result obtained after the given number of hops. -/
def pureIter (t : Request → Result) (strategy : Result → Request) :
    Nat → Result → Result
  | 0, result => result
  | fuel + 1, result => pureIter t strategy fuel (t (strategy result))

/-! ## Evaluation-order model of the engine

In the source, `followRedirectsWith(strategy)(max)(result)` runs the body
of `followUp` eagerly up to the first `transfer`, mutating the
closure-captured `seen` array, and returns a task value; the rest of each
`followUp` body runs whenever that task is executed, pushing onto the same
captured array.  The model below separates the eager stage from task
execution and threads the shared array through both, so that repeated
executions of one task value can be examined. -/

/-- The task value returned by the engine: either an immediately
successful Result, or a pending transfer of `next` followed by the
continuation `followUp rem`. -/
inductive TaskRep where
  | pureT (result : Result) : TaskRep
  | chainT (next : Request) (rem : Nat) : TaskRep
deriving Repr, DecidableEq

/-- The eager stage of `followRedirectsWith(strategy)(max)(result)`
(src/index.ts lines 89-111): allocate a fresh `seen`, run the body of
`followUp(max)(result)` up to the first transfer, and return the final
`seen` contents together with the task value. -/
def engineEager (strategy : Result → Request) (max : Nat) (result : Result) :
    List Request × TaskRep :=
  match max with
  | 0 => ([], TaskRep.pureT result)
  | max' + 1 =>
    let seen := [result.2]
    let next := strategy result
    if seen.any (fun s => equivalent s next) then (seen, TaskRep.pureT result)
    else (seen, TaskRep.chainT next max')

/-- Execution-time `followUp` under a total transport oracle, threading
the shared `seen` array as state and returning its final contents. -/
def followUpState (t : Request → Result) (strategy : Result → Request) :
    Nat → Result → List Request → List Request × Except String Result
  | 0, result, seen => (seen, Except.ok result)
  | max + 1, result, seen =>
    let seen' := seen ++ [result.2]
    let next := strategy result
    if seen'.any (fun s => equivalent s next) then (seen', Except.ok result)
    else followUpState t strategy max (t next) seen'

/-- Execute a task value against the current contents of the shared
`seen` array (a pending transfer fetches `next` and then runs the
continuation `followUp rem` at execution time). -/
def runTask (t : Request → Result) (strategy : Result → Request) :
    TaskRep → List Request → List Request × Except String Result
  | TaskRep.pureT result, seen => (seen, Except.ok result)
  | TaskRep.chainT next rem, seen => followUpState t strategy rem (t next) seen

/-- One invocation of the engine, executed once: the eager stage followed
by one execution of the returned task. -/
def runFresh (t : Request → Result) (strategy : Result → Request)
    (max : Nat) (result : Result) : Except String Result :=
  let p := engineEager strategy max result
  (runTask t strategy p.2 p.1).2

/-- Two executions of the one task value returned by a single invocation
of the engine, the second starting from the `seen` contents the first
left behind. -/
def runTaskTwice (t : Request → Result) (strategy : Result → Request)
    (max : Nat) (result : Result) :
    Except String Result × Except String Result :=
  let p := engineEager strategy max result
  let e1 := runTask t strategy p.2 p.1
  let e2 := runTask t strategy p.2 e1.1
  (e1.2, e2.2)

/-! ## Definitions following the claims' words, for comparison -/

/-- Follows the claim's words (spec section 4.3): request equivalence as
equality of method, URL, referrer and header sets only.  To be compared
with `equivalent`. -/
def specEquivalent (a : Request) (b : Request) : Bool :=
  a.method == b.method && a.url == b.url && a.referrer == b.referrer &&
  headersEq a.headers b.headers

/-- Follows the claim's words (spec section 4.2): protocols match or the
destination's protocol is `https` while the origin's is `http`, and hosts
match or the destination's host is a subdomain of the origin's.  To be
compared with `sameOrigin`. -/
def specSameOrigin (origin : Url) (dest : Url) : Bool :=
  (origin.protocol == dest.protocol ||
    (dest.protocol == "https:" && origin.protocol == "http:")) &&
  (origin.host == dest.host || dest.host.endsWith ("." ++ origin.host))

/-! ## Concrete fixtures used by witnesses and counterexamples -/

/-- A plain GET request with the platform defaults for the remaining
descriptor fields. -/
def baseReq : Request :=
  { method := "GET", url := "http://example.com/a", referrer := ""
  , referrerPolicy := "", cache := "default", credentials := "same-origin"
  , destination := "", integrity := "", mode := "cors", keepalive := false
  , headers := [], body := none, redirect := "manual", signal := 0 }

/-- A request to the given URL, otherwise as `baseReq`. -/
def mkReq (u : String) : Request := { baseReq with url := u }

/-- A bare 200 response. -/
def resp200 : Response := { status := 200, headers := [] }

/-- A transport oracle that answers every request with a 200 response,
pairing it with the transferred request. -/
def oracle200 : Request → Result := fun q => (resp200, q)

/-- The strategy that always returns the Result's own request: the `stop`
signal. -/
def stopStrategy : Result → Request := fun result => result.2

/-- A strategy that always proposes a fresh request: it extends the URL,
so no proposal along a run is equivalent to an earlier request. -/
def freshStrategy : Result → Request := fun result =>
  { result.2 with url := result.2.url ++ "x" }

/-- A strategy advancing through the chain of URLs
`http://h/0 → http://h/1 → http://h/2 → http://h/3 → http://h/3`. -/
def chainStrategy : Result → Request := fun result =>
  if result.2.url == "http://h/0" then mkReq "http://h/1"
  else if result.2.url == "http://h/1" then mkReq "http://h/2"
  else if result.2.url == "http://h/2" then mkReq "http://h/3"
  else mkReq "http://h/3"

/-- A Result carrying a 301 response with a cross-origin absolute
`location`, produced by a GET request bearing confidential headers. -/
def crossOriginResult : Result :=
  ( { status := 301, headers := [("location", "http://other.example/x")] }
  , { baseReq with
      headers := [("authorization", "secret"), ("accept", "text/html")] } )

/-- A Result carrying a 301 response with `location: /new`, produced by a
GET request. -/
def relocate301Result : Result :=
  ( { status := 301, headers := [("location", "/new")] }, baseReq )

/-- A Result carrying a 301 response with `location: /new`, produced by a
POST request. -/
def relocate301PostResult : Result :=
  ( { status := 301, headers := [("location", "/new")] }
  , { baseReq with method := "POST" } )

/-- A Result whose response has no `location` header, produced by a POST
request. -/
def noLocationPostResult : Result :=
  ( resp200, { baseReq with method := "POST" } )

/-! ## Header lemmas -/

/-- Replacing the entries named `n'` in a list that contains one yields a
list in which `n'` is found with the new value. -/
theorem find?_set_mem (n' v : String) :
    ∀ l : List (String × String), l.any (fun kv => kv.1 == n') = true →
    (l.map (fun kv => if kv.1 == n' then (n', v) else kv)).find?
        (fun kv => kv.1 == n') = some (n', v) := by
  intro l
  induction l with
  | nil => intro hc; simp at hc
  | cons kv t ih =>
    intro hc
    rw [List.map_cons, List.find?_cons]
    cases hk : (kv.1 == n') with
    | true => simp
    | false =>
      have ht : t.any (fun kv => kv.1 == n') = true := by
        rw [List.any_cons, hk, Bool.false_or] at hc
        exact hc
      simp only [Bool.false_eq_true, if_false]
      rw [hk]
      exact ih ht

/-- Filtering out the entries named `m'` does not change a search for a
different name `n'`. -/
theorem find?_filter_ne (n' m' : String) (hne : n' ≠ m') :
    ∀ l : List (String × String),
    (l.filter (fun kv => kv.1 != m')).find? (fun kv => kv.1 == n') =
      l.find? (fun kv => kv.1 == n') := by
  intro l
  induction l with
  | nil => rfl
  | cons kv t ih =>
    cases hk : (kv.1 == n') with
    | true =>
      have hkv : kv.1 = n' := by simpa using hk
      have hkm : (kv.1 != m') = true := by
        simp only [hkv, ne_eq, bne_iff_ne]
        exact hne
      simp [List.filter_cons, hkm, List.find?_cons, hk]
    | false =>
      cases hkm : (kv.1 != m') with
      | true => simp [List.filter_cons, hkm, List.find?_cons, hk, ih]
      | false => simp [List.filter_cons, hkm, List.find?_cons, hk, ih]

/-- Looking a name up after `hSet` of that very name yields the value
just set. -/
theorem hGet_hSet_same (n v : String) (h : HeadersM) :
    hGet n (hSet n v h) = some v := by
  unfold hGet hSet
  split
  · next hc =>
      rw [find?_set_mem (lowerStr n) v h hc]
      rfl
  · next hc =>
      have hnone : h.find? (fun kv => kv.1 == lowerStr n) = none := by
        rw [List.find?_eq_none]
        intro x hx hpx
        exact hc (List.any_eq_true.mpr ⟨x, hx, hpx⟩)
      rw [List.find?_append, hnone]
      simp [List.find?_cons]

/-- Looking a name up after deleting it yields nothing. -/
theorem hGet_hDelete_same (n : String) (h : HeadersM) :
    hGet n (hDelete n h) = none := by
  unfold hGet hDelete
  have hnone : (h.filter (fun kv => kv.1 != lowerStr n)).find?
      (fun kv => kv.1 == lowerStr n) = none := by
    rw [List.find?_eq_none]
    intro x hx hpx
    have := (List.mem_filter.mp hx).2
    simp only [bne_iff_ne, ne_eq] at this
    exact this (by simpa using hpx)
  simp [hnone]

/-- Deleting one name does not change lookups of a different name. -/
theorem hGet_hDelete_other (n m : String) (h : HeadersM)
    (hne : lowerStr n ≠ lowerStr m) :
    hGet n (hDelete m h) = hGet n h := by
  unfold hGet hDelete
  rw [find?_filter_ne (lowerStr n) (lowerStr m) hne h]

/-- `authorization` and `cookie` are absent after `omitConfidential`. -/
theorem omitConfidential_removes (h : HeadersM) :
    hGet "authorization" (omitConfidential h) = none ∧
    hGet "cookie" (omitConfidential h) = none := by
  constructor
  · unfold omitConfidential
    rw [hGet_hDelete_other "authorization" "cookie" _ (by decide)]
    exact hGet_hDelete_same _ _
  · exact hGet_hDelete_same _ _

/-! ## Claim C10: header append -/

/-- C10, counterexample: `append` on `{foo: baz}` yields the combined
value `baz, bar` — joined by a comma and a space — and not the claimed
`old value + "," + value`. -/
theorem append_claim_counterexample :
    hGet "foo" (hAppend "foo" "bar" (hFrom [("foo", "baz")])) =
      some "baz, bar" ∧
    "baz, bar" ≠ "baz" ++ "," ++ "bar" := by decide

/-- C10, amended: if `name` is present with value `old`, `append`
produces the header set with `name` set to `old ++ ", " ++ value`
(comma and space, no escaping of commas in either side), whose lookup
yields exactly that combined value; if `name` is absent, `append`
behaves like `set`. -/
theorem append_spec (h : HeadersM) (name value old : String) :
    (hGet name h = some old →
      hAppend name value h = hSet name (old ++ ", " ++ value) h ∧
      hGet name (hAppend name value h) = some (old ++ ", " ++ value)) ∧
    (hGet name h = none → hAppend name value h = hSet name value h) := by
  constructor
  · intro hs
    constructor
    · unfold hAppend
      rw [hs]
    · unfold hAppend
      rw [hs]
      exact hGet_hSet_same name (old ++ ", " ++ value) h
  · intro hn
    unfold hAppend
    rw [hn]

/-- C10, witness: appending `bar` to `{foo: baz}` and looking `foo` up
yields the combined value. -/
theorem append_spec_witness :
    hGet "foo" (hAppend "foo" "bar" (hFrom [("foo", "baz")])) =
      some ("baz" ++ ", " ++ "bar") :=
  ((append_spec (hFrom [("foo", "baz")]) "foo" "bar" "baz").1 (by decide)).2

/-! ## Claim C4: request equivalence -/

/-- C4, counterexample: two requests equal in method, URL, referrer and
headers but different in `mode` satisfy the claimed four-field
equivalence, yet `equivalent` rejects them. -/
theorem equivalent_claim_counterexample :
    specEquivalent baseReq { baseReq with mode := "no-cors" } = true ∧
    equivalent baseReq { baseReq with mode := "no-cors" } = false := by decide

/-- C4, amended: `equivalent` holds exactly when all compared descriptor
fields agree — method, URL, referrer and header set as claimed, and
additionally cache, credentials, destination, integrity, keepalive,
mode and referrerPolicy; body, redirect mode and the cancellation signal
are excluded. -/
theorem equivalent_characterisation (a : Request) (b : Request) :
    equivalent a b = true ↔
      (a.cache = b.cache ∧ a.credentials = b.credentials ∧
       a.destination = b.destination ∧
       headersEq a.headers b.headers = true ∧
       a.integrity = b.integrity ∧ a.keepalive = b.keepalive ∧
       a.method = b.method ∧ a.mode = b.mode ∧ a.referrer = b.referrer ∧
       a.referrerPolicy = b.referrerPolicy ∧ a.url = b.url) := by
  unfold equivalent
  simp only [Bool.and_eq_true, beq_iff_eq]
  tauto

/-! ## Claim C5: sameOrigin characterisation -/

/-- C5, counterexample: an upgrade to `https` from an origin whose
protocol is not `http` is accepted by `sameOrigin`, but rejected by the
claim's formula. -/
theorem sameOrigin_claim_counterexample :
    sameOrigin ⟨"ftp:", "example.com", "/"⟩ ⟨"https:", "example.com", "/"⟩ =
      true ∧
    specSameOrigin ⟨"ftp:", "example.com", "/"⟩
      ⟨"https:", "example.com", "/"⟩ = false := by decide

/-- C5, amended: `sameOrigin origin dest` holds exactly when the
protocols match or the destination's protocol is `https:` (regardless of
the origin's protocol), and the hosts match or the destination's host is
a subdomain of the origin's; an https-to-http downgrade is never
same-origin. -/
theorem sameOrigin_characterisation (origin : Url) (dest : Url) :
    (sameOrigin origin dest = true ↔
      ((origin.protocol = dest.protocol ∨ dest.protocol = "https:") ∧
       (origin.host = dest.host ∨
         endsWithS dest.host ("." ++ origin.host) = true))) ∧
    (origin.protocol = "https:" → dest.protocol = "http:" →
      sameOrigin origin dest = false) := by
  constructor
  · unfold sameOrigin
    simp [Bool.and_eq_true, Bool.or_eq_true, beq_iff_eq]
  · intro h1 h2
    have e1 : (("https:" : String) == "http:") = false := by decide
    have e2 : (("http:" : String) == "https:") = false := by decide
    unfold sameOrigin
    rw [h1, h2, e1, e2]
    rfl

/-- C5, witness: the downgrade case of the characterisation at a
concrete pair of URLs. -/
theorem sameOrigin_characterisation_witness :
    sameOrigin ⟨"https:", "example.com", "/"⟩
      ⟨"http:", "example.com", "/"⟩ = false :=
  (sameOrigin_characterisation ⟨"https:", "example.com", "/"⟩
    ⟨"http:", "example.com", "/"⟩).2 rfl rfl

/-! ## Claim C6: sameOrigin on concrete URLs -/

/-- C6, counterexample: `sameOrigin` applied to origin
`http://example.com` and destination `https://example.com` is `true`,
where the claim says it is false. -/
theorem sameOrigin_literals_counterexample :
    ((urlParse "http://example.com").bind (fun origin =>
      (urlParse "https://example.com").map (fun dest =>
        sameOrigin origin dest))) = some true := by decide

/-- C6, amended: subdomain destination is same-origin with its parent
origin and not conversely; the http-to-https upgrade is same-origin and
the https-to-http downgrade is not. -/
theorem sameOrigin_literals :
    ((urlParse "http://example.com").bind (fun origin =>
      (urlParse "http://foo.example.com").map (fun dest =>
        sameOrigin origin dest))) = some true ∧
    ((urlParse "http://foo.example.com").bind (fun origin =>
      (urlParse "http://example.com").map (fun dest =>
        sameOrigin origin dest))) = some false ∧
    ((urlParse "http://example.com").bind (fun origin =>
      (urlParse "https://example.com").map (fun dest =>
        sameOrigin origin dest))) = some true ∧
    ((urlParse "https://example.com").bind (fun origin =>
      (urlParse "http://example.com").map (fun dest =>
        sameOrigin origin dest))) = some false := by decide

/-! ## Strategy lemmas -/

/-- When the redirect target does not resolve — no `location` header, an
unparseable request URL, or failed resolution — `redirectAnyRequest`
returns the original request. -/
theorem redirectAnyRequest_fallback (result : Result)
    (h : resolveTarget result = none) :
    redirectAnyRequest result = result.2 := by
  unfold resolveTarget at h
  cases hl : hGet "location" result.1.headers with
  | none => simp [redirectAnyRequest, hl]
  | some location =>
    cases hp : urlParse result.2.url with
    | none => simp [redirectAnyRequest, hl, hp]
    | some origin =>
      rw [hl, hp] at h
      have hn : navigate location origin = none := h
      simp [redirectAnyRequest, hl, hp, hn]

/-! ## Claim C3: redirectAnyRequest -/

/-- C3: when the response carries a `location` header that resolves
against the request's URL, `redirectAnyRequest` returns a new Request
pointed at the resolved URL — preserving method, body and headers — and
additionally strips the confidential `authorization` and `cookie`
headers when the resolved URL is not same-origin with the request's URL;
when lookup or resolution fails it returns the original request
unchanged. -/
theorem redirectAnyRequest_correct (result : Result) (location : String)
    (origin : Url) (dest : Url) :
    (hGet "location" result.1.headers = some location →
      urlParse result.2.url = some origin →
      navigate location origin = some dest →
      redirectAnyRequest result =
        (if sameOrigin origin dest
          then Request.withUrl dest result.2
          else Request.withHeaders (omitConfidential result.2.headers)
                 (Request.withUrl dest result.2))) ∧
    (resolveTarget result = none → redirectAnyRequest result = result.2) ∧
    hGet "authorization" (omitConfidential result.2.headers) = none ∧
    hGet "cookie" (omitConfidential result.2.headers) = none := by
  refine ⟨?_, redirectAnyRequest_fallback result,
    (omitConfidential_removes result.2.headers).1,
    (omitConfidential_removes result.2.headers).2⟩
  intro h1 h2 h3
  simp [redirectAnyRequest, h1, h2, h3]

/-- C3, witness: a cross-origin absolute `location` yields the request
repointed with confidential headers stripped. -/
theorem redirectAnyRequest_correct_witness :
    redirectAnyRequest crossOriginResult =
      (if sameOrigin ⟨"http:", "example.com", "/a"⟩
            ⟨"http:", "other.example", "/x"⟩
        then Request.withUrl ⟨"http:", "other.example", "/x"⟩
               crossOriginResult.2
        else Request.withHeaders (omitConfidential crossOriginResult.2.headers)
               (Request.withUrl ⟨"http:", "other.example", "/x"⟩
                 crossOriginResult.2)) :=
  (redirectAnyRequest_correct crossOriginResult "http://other.example/x"
    ⟨"http:", "example.com", "/a"⟩ ⟨"http:", "other.example", "/x"⟩).1
    (by decide) (by decide) (by decide)

/-! ## Claim C8: strategies never fail -/

/-- C8, counterexample: with no `location` header and a POST request,
`redirectUsingGetMethod` does not return the original request — it
returns the original request with its method forced to GET. -/
theorem redirectUsingGetMethod_claim_counterexample :
    resolveTarget noLocationPostResult = none ∧
    redirectUsingGetMethod noLocationPostResult ≠
      noLocationPostResult.2 := by decide

/-- C8, amended: every strategy of the library is a total function, and
when the redirect target is absent or unresolvable each returns a
Request derived from the original without transferring anything:
`redirectAnyRequest` and `redirectIfGetMethod` return it unchanged,
`redirectUsingGetMethod` returns it with its method forced to GET,
`retryWithoutCondition` returns it unchanged or with conditional headers
stripped, and the two composite strategies return one of those
outcomes. -/
theorem strategies_fallback (result : Result)
    (h : resolveTarget result = none) :
    redirectAnyRequest result = result.2 ∧
    redirectIfGetMethod result = result.2 ∧
    redirectUsingGetMethod result = Request.withMethod "GET" result.2 ∧
    (retryWithoutCondition result = result.2 ∨
      retryWithoutCondition result =
        Request.withHeaders (omitConditional result.2.headers) result.2) ∧
    (defaultRedirectionStrategy result = result.2 ∨
      defaultRedirectionStrategy result =
        Request.withMethod "GET" result.2) ∧
    (aggressiveRedirectionStrategy result = result.2 ∨
      aggressiveRedirectionStrategy result =
        Request.withMethod "GET" result.2 ∨
      aggressiveRedirectionStrategy result =
        Request.withHeaders (omitConditional result.2.headers) result.2) := by
  have h1 : redirectAnyRequest result = result.2 :=
    redirectAnyRequest_fallback result h
  have hAlt : resolveTarget (result.1, Request.withMethod "GET" result.2) =
      none := h
  have h3 : redirectUsingGetMethod result =
      Request.withMethod "GET" result.2 :=
    redirectAnyRequest_fallback (result.1, Request.withMethod "GET" result.2)
      hAlt
  have h2 : redirectIfGetMethod result = result.2 := by
    unfold redirectIfGetMethod
    cases hm : result.2.method == "GET" with
    | true => simp [h1]
    | false => simp
  have h4 : retryWithoutCondition result = result.2 ∨
      retryWithoutCondition result =
        Request.withHeaders (omitConditional result.2.headers) result.2 := by
    unfold retryWithoutCondition
    cases hm : result.2.method != "GET" with
    | true => exact Or.inl (by simp)
    | false => exact Or.inr (by simp)
  refine ⟨h1, h2, h3, h4, ?_, ?_⟩
  · by_cases s1 : (result.1.status == 301) = true
    · exact Or.inl (by
        simp [defaultRedirectionStrategy, matchStatus, List.lookup, s1, h2])
    by_cases s2 : (result.1.status == 302) = true
    · exact Or.inl (by
        simp [defaultRedirectionStrategy, matchStatus, List.lookup, s1, s2,
          h2])
    by_cases s3 : (result.1.status == 303) = true
    · exact Or.inr (by
        simp [defaultRedirectionStrategy, matchStatus, List.lookup, s1, s2,
          s3, h3])
    by_cases s5 : (result.1.status == 305) = true
    · exact Or.inl (by
        simp [defaultRedirectionStrategy, matchStatus, List.lookup, s1, s2,
          s3, s5, h1])
    by_cases s7 : (result.1.status == 307) = true
    · exact Or.inl (by
        simp [defaultRedirectionStrategy, matchStatus, List.lookup, s1, s2,
          s3, s5, s7, h2])
    exact Or.inl (by
      simp [defaultRedirectionStrategy, matchStatus, List.lookup, s1, s2, s3,
        s5, s7])
  · by_cases s1 : (result.1.status == 301) = true
    · exact Or.inl (by
        simp [aggressiveRedirectionStrategy, matchStatus, List.lookup, s1,
          h1])
    by_cases s2 : (result.1.status == 302) = true
    · exact Or.inl (by
        simp [aggressiveRedirectionStrategy, matchStatus, List.lookup, s1,
          s2, h1])
    by_cases s3 : (result.1.status == 303) = true
    · exact Or.inr (Or.inl (by
        simp [aggressiveRedirectionStrategy, matchStatus, List.lookup, s1,
          s2, s3, h3]))
    by_cases s4 : (result.1.status == 304) = true
    · cases h4 with
      | inl h4a =>
        exact Or.inl (by
          simp [aggressiveRedirectionStrategy, matchStatus, List.lookup, s1,
            s2, s3, s4, h4a])
      | inr h4b =>
        exact Or.inr (Or.inr (by
          simp [aggressiveRedirectionStrategy, matchStatus, List.lookup, s1,
            s2, s3, s4, h4b]))
    by_cases s5 : (result.1.status == 305) = true
    · exact Or.inl (by
        simp [aggressiveRedirectionStrategy, matchStatus, List.lookup, s1,
          s2, s3, s4, s5, h1])
    by_cases s7 : (result.1.status == 307) = true
    · exact Or.inl (by
        simp [aggressiveRedirectionStrategy, matchStatus, List.lookup, s1,
          s2, s3, s4, s5, s7, h1])
    exact Or.inl (by
      simp [aggressiveRedirectionStrategy, matchStatus, List.lookup, s1, s2,
        s3, s4, s5, s7])

/-- C8, witness: the fallback behaviour at a concrete Result with no
`location` header. -/
theorem strategies_fallback_witness :
    redirectAnyRequest noLocationPostResult = noLocationPostResult.2 :=
  (strategies_fallback noLocationPostResult (by decide)).1

/-! ## Claim C7: the default strategy on a 301 -/

/-- C7: on a 301 response whose `location` is `/new`, the default
strategy applied to a GET request yields a Request to the location
resolved to an absolute URL against the request's URL, with method still
GET; applied to a POST request it yields the original request
unchanged. -/
theorem defaultStrategy_301 :
    (∀ result : Result, ∀ origin : Url,
      result.1.status = 301 → result.2.method = "GET" →
      hGet "location" result.1.headers = some "/new" →
      urlParse result.2.url = some origin →
      defaultRedirectionStrategy result =
        Request.withUrl ⟨origin.protocol, origin.host, "/new"⟩ result.2 ∧
      (defaultRedirectionStrategy result).method = "GET") ∧
    (∀ result : Result,
      result.1.status = 301 → result.2.method = "POST" →
      defaultRedirectionStrategy result = result.2) := by
  constructor
  · intro result origin h301 hGET hloc hparse
    have hnav : navigate "/new" origin =
        some ⟨origin.protocol, origin.host, "/new"⟩ := rfl
    have hso : sameOrigin origin ⟨origin.protocol, origin.host, "/new"⟩ =
        true := by
      unfold sameOrigin
      simp
    have hd : defaultRedirectionStrategy result =
        Request.withUrl ⟨origin.protocol, origin.host, "/new"⟩ result.2 := by
      simp [defaultRedirectionStrategy, matchStatus, List.lookup, h301,
        redirectIfGetMethod, hGET, redirectAnyRequest, hloc, hparse, hnav,
        hso]
    refine ⟨hd, ?_⟩
    rw [hd]
    simpa [Request.withUrl] using hGET
  · intro result h301 hPOST
    simp [defaultRedirectionStrategy, matchStatus, List.lookup, h301,
      redirectIfGetMethod, hPOST,
      (by decide : (("POST" : String) == "GET") = false)]

/-- C7, witness: both branches at concrete 301 Results. -/
theorem defaultStrategy_301_witness :
    defaultRedirectionStrategy relocate301Result =
      Request.withUrl ⟨"http:", "example.com", "/new"⟩
        relocate301Result.2 ∧
    defaultRedirectionStrategy relocate301PostResult =
      relocate301PostResult.2 :=
  ⟨(defaultStrategy_301.1 relocate301Result ⟨"http:", "example.com", "/a"⟩
      (by decide) (by decide) (by decide) (by decide)).1,
   defaultStrategy_301.2 relocate301PostResult (by decide) (by decide)⟩

/-! ## Engine lemmas -/

/-- The always-succeeding oracle, applied. -/
theorem okT_apply (t : Request → Result) (q : Request) :
    okT t q = Except.ok (t q) := rfl

/-- The engine never performs more transfers than its hop budget. -/
theorem followUpCount_le (t : Transfer) (strategy : Result → Request) :
    ∀ max seen result, followUpCount t strategy max seen result ≤ max := by
  intro max
  induction max with
  | zero => intro seen result; simp [followUpCount]
  | succ m ih =>
    intro seen result
    simp only [followUpCount]
    split
    · exact Nat.zero_le _
    · cases ht : t (strategy result) with
      | error e => simp [ht]
      | ok result' =>
        simp only [ht]
        have := ih (seen ++ [result.2]) result'
        omega

/-- A halting trace records a history longer than the one it started
from. -/
theorem traceHalt_lb (t : Request → Result) (strategy : Result → Request) :
    ∀ fuel seen result rfin hlen,
      traceHalt t strategy fuel seen result = some (rfin, hlen) →
      seen.length + 1 ≤ hlen := by
  intro fuel
  induction fuel with
  | zero => intro seen result rfin hlen h; simp [traceHalt] at h
  | succ f ih =>
    intro seen result rfin hlen h
    simp only [traceHalt] at h
    split at h
    · simp only [Option.some.injEq, Prod.mk.injEq] at h
      obtain ⟨_, hl⟩ := h
      rw [← hl]
      simp
    · have := ih (seen ++ [result.2]) (t (strategy result)) rfin hlen h
      simp only [List.length_append, List.length_cons, List.length_nil]
        at this
      omega

/-- If the trace halts at history length `hlen`, any budget of at least
`hlen - seen.length` makes the engine return the halting Result after
exactly `hlen - seen.length - 1` transfers. -/
theorem engine_halt_run (t : Request → Result) (strategy : Result → Request) :
    ∀ fuel seen result rfin hlen,
      traceHalt t strategy fuel seen result = some (rfin, hlen) →
      ∀ max, hlen ≤ max + seen.length →
        followUp (okT t) strategy max seen result = Except.ok rfin ∧
        followUpCount (okT t) strategy max seen result +
          (seen.length + 1) = hlen := by
  intro fuel
  induction fuel with
  | zero => intro seen result rfin hlen h; simp [traceHalt] at h
  | succ f ih =>
    intro seen result rfin hlen h max hmax
    simp only [traceHalt] at h
    split at h
    · next hhit =>
      simp only [Option.some.injEq, Prod.mk.injEq] at h
      obtain ⟨hr, hl⟩ := h
      subst hr
      have hlen1 : hlen = seen.length + 1 := by
        rw [← hl]
        simp
      obtain ⟨m, rfl⟩ : ∃ m, max = m + 1 := ⟨max - 1, by omega⟩
      constructor
      · simp only [followUp]
        rw [if_pos hhit]
      · simp only [followUpCount]
        rw [if_pos hhit]
        omega
    · next hmiss =>
      have hlb := traceHalt_lb t strategy f (seen ++ [result.2])
        (t (strategy result)) rfin hlen h
      simp only [List.length_append, List.length_cons, List.length_nil]
        at hlb
      obtain ⟨m, rfl⟩ : ∃ m, max = m + 1 := ⟨max - 1, by omega⟩
      have ihm := ih (seen ++ [result.2]) (t (strategy result)) rfin hlen h m
        (by
          simp only [List.length_append, List.length_cons, List.length_nil]
          omega)
      constructor
      · simp only [followUp, okT_apply]
        rw [if_neg hmiss]
        exact ihm.1
      · simp only [followUpCount, okT_apply]
        rw [if_neg hmiss]
        have := ihm.2
        simp only [List.length_append, List.length_cons, List.length_nil]
          at this
        omega

/-- If no equivalence hit occurs within the budget, the engine spends the
whole budget and succeeds with the purely iterated Result. -/
theorem noHit_run (t : Request → Result) (strategy : Result → Request) :
    ∀ max seen result, noHit t strategy max seen result = true →
      followUp (okT t) strategy max seen result =
        Except.ok (pureIter t strategy max result) ∧
      followUpCount (okT t) strategy max seen result = max := by
  intro max
  induction max with
  | zero => intro seen result _; exact ⟨rfl, rfl⟩
  | succ m ih =>
    intro seen result h
    simp only [noHit] at h
    split at h
    · exact absurd h (by decide)
    · next hmiss =>
      have ihm := ih (seen ++ [result.2]) (t (strategy result)) h
      constructor
      · simp only [followUp, okT_apply]
        rw [if_neg hmiss]
        simpa [pureIter] using ihm.1
      · simp only [followUpCount, okT_apply]
        rw [if_neg hmiss]
        rw [ihm.2]
        omega

/-! ## Claim C1: loop termination -/

/-- C1: if along the engine's own trace the strategy eventually proposes
a request equivalent to one already in the history (including proposing
the current Result's own request unchanged), then the invocation
performs at most `hlen + 1` transfers for every budget, and for every
budget of at least `hlen` it returns the Result current at the hit — the
transfer count then being exactly `hlen - 1` — no matter how large the
budget is. -/
theorem followRedirectsWith_loop_termination
    (t : Request → Result) (strategy : Result → Request) (fuel : Nat)
    (r0 : Result) (rfin : Result) (hlen : Nat)
    (h : traceHalt t strategy fuel [] r0 = some (rfin, hlen)) :
    (∀ max, followUpCount (okT t) strategy max [] r0 ≤ hlen + 1) ∧
    (∀ max, hlen ≤ max →
      followRedirectsWith (okT t) strategy max r0 = Except.ok rfin ∧
      followUpCount (okT t) strategy max [] r0 + 1 = hlen) := by
  have key : ∀ max, hlen ≤ max →
      followUp (okT t) strategy max [] r0 = Except.ok rfin ∧
      followUpCount (okT t) strategy max [] r0 + 1 = hlen := by
    intro max hmax
    have hk := engine_halt_run t strategy fuel [] r0 rfin hlen h max
      (by simpa using hmax)
    simpa using hk
  constructor
  · intro max
    by_cases hm : hlen ≤ max
    · have := (key max hm).2
      omega
    · have := followUpCount_le (okT t) strategy max [] r0
      omega
  · intro max hmax
    exact ⟨(key max hmax).1, (key max hmax).2⟩

/-- C1, witness: the stop-signalling strategy halts with history length
1, so a budget of 42 returns the initial Result with zero transfers. -/
theorem followRedirectsWith_loop_termination_witness :
    followRedirectsWith (okT oracle200) stopStrategy 42 (resp200, baseReq) =
      Except.ok (resp200, baseReq) ∧
    followUpCount (okT oracle200) stopStrategy 42 [] (resp200, baseReq) +
      1 = 1 :=
  (followRedirectsWith_loop_termination oracle200 stopStrategy 1
    (resp200, baseReq) (resp200, baseReq) 1 (by decide)).2 42 (by decide)

/-! ## Claim C2: hop budget -/

/-- C2: under a strategy that never proposes a previously seen request,
the engine performs at most `N` transfers beyond the initial Result and,
once the budget is exhausted, returns the last obtained Result as a
success and not a failure. -/
theorem followRedirectsWith_hop_budget
    (t : Request → Result) (strategy : Result → Request) (N : Nat)
    (r0 : Result) (h : noHit t strategy N [] r0 = true) :
    followRedirectsWith (okT t) strategy N r0 =
      Except.ok (pureIter t strategy N r0) ∧
    followUpCount (okT t) strategy N [] r0 ≤ N :=
  ⟨(noHit_run t strategy N [] r0 h).1,
   followUpCount_le (okT t) strategy N [] r0⟩

/-- C2, witness: the URL-extending strategy under budget 2. -/
theorem followRedirectsWith_hop_budget_witness :
    followRedirectsWith (okT oracle200) freshStrategy 2 (resp200, baseReq) =
      Except.ok (pureIter oracle200 freshStrategy 2 (resp200, baseReq)) ∧
    followUpCount (okT oracle200) freshStrategy 2 [] (resp200, baseReq) ≤
      2 :=
  followRedirectsWith_hop_budget oracle200 freshStrategy 2 (resp200, baseReq)
    (by decide)

/-! ## Claim C9: history locality -/

/-- Execution-time `followUp`, projected to its outcome, agrees with the
pure reference engine. -/
theorem followUpState_snd (t : Request → Result)
    (strategy : Result → Request) :
    ∀ max result seen,
      (followUpState t strategy max result seen).2 =
        followUp (okT t) strategy max seen result := by
  intro max
  induction max with
  | zero => intro result seen; rfl
  | succ m ih =>
    intro result seen
    simp only [followUpState, followUp, okT_apply]
    split
    · rfl
    · exact ih (t (strategy result)) (seen ++ [result.2])

/-- C9, counterexample: executing the task value returned by one engine
invocation twice yields different final Results — the second execution's
loop detection observes the requests recorded by the first and stops two
hops early. -/
theorem task_reexecution_counterexample :
    (runTaskTwice oracle200 chainStrategy 3 (resp200, mkReq "http://h/0")).1 =
      Except.ok (resp200, mkReq "http://h/3") ∧
    (runTaskTwice oracle200 chainStrategy 3 (resp200, mkReq "http://h/0")).2 =
      Except.ok (resp200, mkReq "http://h/1") ∧
    ((resp200, mkReq "http://h/3") : Result) ≠
      (resp200, mkReq "http://h/1") :=
  ⟨rfl, rfl, by decide⟩

/-- C9, amended: each invocation of `followRedirectsWith` allocates its
own history, so every fresh invocation — concurrent or sequential —
behaves exactly like the pure reference run on its inputs, performing
the same transfers and returning the same final Result; only re-running
the one task value returned by a single invocation shares history and
may deviate. -/
theorem fresh_invocation_reference (t : Request → Result)
    (strategy : Result → Request) (max : Nat) (result : Result) :
    runFresh t strategy max result =
      followRedirectsWith (okT t) strategy max result := by
  cases max with
  | zero => rfl
  | succ m =>
    unfold runFresh followRedirectsWith
    simp only [engineEager]
    split
    · next hhit =>
      simp only [runTask, followUp]
      rw [if_pos (by simpa using hhit)]
    · next hmiss =>
      simp only [runTask, followUpState_snd, followUp, okT_apply]
      rw [if_neg (by simpa using hmiss)]
      simp

end FpFetch

